import Mathlib

/-!
Verification of the RedwoodJS build pipeline (`packages/redwood/src/index.ts`).

The development shallowly embeds the packaging phase of `build`: JavaScript
objects used as string-keyed tables become association lists with
JavaScript assignment semantics (`objInsert`), Node `path` operations are
modelled character-wise on `/`-separated strings, and the per-function
packaging loop becomes an explicit `Except`-valued fold.  Object identity
of `FileFsRef` values (needed to talk about "the same cached instance") is
modelled by tagging each allocation with a fresh numeric id threaded
through the loop.
-/

namespace Redwood

/-- JavaScript object property lookup on a string-keyed association list:
`m[k]`, returning `none` when the key is absent (`undefined`). -/
def objGet {α : Type} (m : List (String × α)) (k : String) : Option α :=
  (m.find? (fun p => p.1 == k)).map Prod.snd

/-- JavaScript object property assignment `m[k] = v`: when `k` is already a
key its value is updated in place (insertion order kept), otherwise the
pair is appended.  Later assignments silently overwrite earlier ones. -/
def objInsert {α : Type} (m : List (String × α)) (k : String) (v : α) : List (String × α) :=
  if m.any (fun p => p.1 == k) then
    m.map (fun p => if p.1 == k then (k, v) else p)
  else m ++ [(k, v)]

/-- JavaScript object spread `\x7b...a, ...b\x7d`: every property of `b` is
assigned, in order, on top of a copy of `a`. -/
def objSpread {α : Type} (a b : List (String × α)) : List (String × α) :=
  b.foldl (fun m p => objInsert m p.1 p.2) a

/-- The final path component (Node `path.basename` without an extension
argument): the characters after the last `/`. -/
def basenameStr (s : String) : String :=
  ⟨((s.toList.reverse.takeWhile (fun c => c ≠ '/')).reverse)⟩

/-- Node `path.parse(s).dir`: everything before the last `/`, empty when the
path has no `/`. -/
def parseDir (s : String) : String :=
  ⟨(((s.toList.reverse.dropWhile (fun c => c ≠ '/')).drop 1).reverse)⟩

/-- Node `path.parse(basename).ext`: the substring from the last `.` of a
basename, except that a `.` in first position marks a dotfile with no
extension.  `nodeExt "a.b.html" = ".html"`, `nodeExt ".html" = ""`. -/
def nodeExt (b : String) : String :=
  let cs := b.toList
  let afterDot := cs.reverse.takeWhile (fun c => c ≠ '.')
  if afterDot.length + 1 < cs.length then ⟨'.' :: afterDot.reverse⟩ else ""

/-- Node `path.parse(basename).name`: the basename with `nodeExt` removed. -/
def nodeName (b : String) : String :=
  let cs := b.toList
  let afterDot := cs.reverse.takeWhile (fun c => c ≠ '.')
  if afterDot.length + 1 < cs.length then ⟨(cs.reverse.drop (afterDot.length + 1)).reverse⟩
  else b

/-- Node `path.basename(p, ext)`: the final component of `p`, with the
suffix `ext` removed when the component is longer than `ext` and ends with
it (Node keeps a component that is exactly `ext`). -/
def nodeBasename (p ext : String) : String :=
  let b := basenameStr p
  if b != ext && ext.toList.isSuffixOf b.toList then
    ⟨b.toList.take (b.toList.length - ext.toList.length)⟩
  else b

/-- Node `path.join(a, b)` for the shapes the builder produces: plain
concatenation with a `/`, except that joining onto the empty string yields
`b` unchanged. -/
def joinModel (a b : String) : String :=
  if a == "" then b else a ++ "/" ++ b

/-- Node `path.relative(base, p)` for the only case the builder exercises:
`p` lying strictly under `base`, where the result is `p` with the leading
`base ++ "/"` removed. -/
def relativeModel (base p : String) : String :=
  let pre := (base ++ "/").toList
  if pre.isPrefixOf p.toList then ⟨p.toList.drop pre.length⟩ else p

/-- First-occurrence replacement on character lists, as JavaScript
`String.prototype.replace` with a string pattern performs. -/
def replaceFirstList (cs pat rep : List Char) : List Char :=
  match cs with
  | [] => []
  | c :: rest =>
    if pat.isPrefixOf (c :: rest) then rep ++ (c :: rest).drop pat.length
    else c :: replaceFirstList rest pat rep

/-- JavaScript `s.replace(pat, rep)` with a string pattern: only the first
occurrence is replaced; `s` is returned unchanged when `pat` is absent. -/
def replaceFirst (s pat rep : String) : String :=
  ⟨replaceFirstList s.toList pat.toList rep.toList⟩

/-- Whether `t` is a suffix of `s`, character-wise. -/
def strEndsWith (s t : String) : Bool :=
  t.toList.isSuffixOf s.toList

/-- The `isSymbolicLink` helper from `@vercel/build-utils`: the file-type bits of a
`stat` mode equal `S_IFLNK`. -/
def isSymbolicLink (mode : Nat) : Bool :=
  mode &&& 0o170000 == 0o120000

/-- A static asset as the builder emits it: the underlying file (by its
absolute path) plus the `contentType` the loop may have set on it; `none`
models the field being left `undefined` by `glob`. -/
structure StaticAsset where
  fsPath : String
  contentType : Option String
deriving DecidableEq, Repr

/-- Body of the static-output loop (index.ts lines 177-198) for one
`fileName` (a path relative to `webDistPath`, as `glob` keys its result):
a non-`.html` file is stored under `fileName` unchanged; an `.html` file
gets `contentType` forced to `text/html; charset=utf-8` and is stored
under its path with the `.html` extension stripped. -/
def staticStep (webDistPath : String) (acc : List (String × StaticAsset))
    (fileName : String) : List (String × StaticAsset) :=
  let fsPath := joinModel webDistPath fileName
  if nodeExt (basenameStr fsPath) != ".html" then
    objInsert acc fileName ⟨fsPath, none⟩
  else
    let fileNameWithoutExtension := nodeBasename fileName ".html"
    let pathWithoutHtmlExtension := joinModel (parseDir fsPath) fileNameWithoutExtension
    objInsert acc (relativeModel webDistPath pathWithoutHtmlExtension)
      ⟨fsPath, some "text/html; charset=utf-8"⟩

/-- The `staticOutputs` table built by folding `staticStep` over the files
`glob('**', webDistPath)` found, in order. -/
def staticOutputsModel (webDistPath : String) (files : List String) :
    List (String × StaticAsset) :=
  files.foldl (staticStep webDistPath) []

/-- One rewrite rule of the `nowConfig` handed to the route
transformation step. -/
structure Rewrite where
  source : String
  destination : String
deriving DecidableEq, Repr

/-- The `nowConfig` the builder passes to `getTransformedRoutes`
(index.ts lines 301-308); the transformation itself lives in the external
`@vercel/routing-utils` package. -/
structure RoutesNowConfig where
  rewrites : List Rewrite
  cleanUrls : Bool
  trailingSlash : Bool
deriving DecidableEq, Repr

/-- The `fallbackHtmlPage` computation (index.ts lines 297-299): `/200` when the file
`200.html` exists at the static root (the argument lists the files under
`webDistPath` by relative path), `/index` otherwise. -/
def fallbackHtmlPage (staticFiles : List String) : String :=
  if staticFiles.contains "200.html" then "/200" else "/index"

/-- The routing configuration the builder synthesizes: a single catch-all
rewrite to the fallback page, with `cleanUrls` on and `trailingSlash`
off. -/
def defaultRoutesNowConfig (staticFiles : List String) : RoutesNowConfig :=
  ⟨[⟨"/(.*)", fallbackHtmlPage staticFiles⟩], true, false⟩

/-- A `FileFsRef` value.  `instanceId` models JavaScript object identity:
every `FileFsRef.fromFsPath` call allocates a fresh id, so two entries are
the same runtime instance exactly when their ids coincide. -/
structure FileFsRefM where
  fsPath : String
  instanceId : Nat
deriving DecidableEq, Repr

/-- Model of `FileFsRef.fromFsPath`: allocates a fresh reference for `fsPath`,
threading the allocation counter. -/
def fromFsPath (fsPath : String) (nextId : Nat) : FileFsRefM × Nat :=
  (⟨fsPath, nextId⟩, nextId + 1)

/-- The result of `nodeFileTrace` as the builder consumes it: the two file
lists plus the warnings' `stack` fields (`none` models a warning object
without a `stack`). -/
structure TraceResult where
  fileList : List String
  esmFileList : List String
  warnings : List (Option String)
deriving DecidableEq, Repr

/-- The `NodejsLambda` fields the packaging loop fills in (the constant
fields `runtime`, `shouldAddHelpers`, `shouldAddSourcemapSupport` are
omitted). -/
structure NodejsLambdaM where
  files : List (String × FileFsRefM)
  handler : String
  memory : Option Nat
  maxDuration : Option Nat
  awsLambdaHandler : String
deriving DecidableEq, Repr

/-- Model of `getAWSLambdaHandler` (index.ts lines 320-323): the parsed `dir` of the
file path, the platform separator `sep` when `dir` is non-empty, the
parsed `name`, a dot, and the handler symbol. -/
def getAWSLambdaHandlerM (sep filePath handlerName : String) : String :=
  let dir := parseDir filePath
  let name := nodeName (basenameStr filePath)
  dir ++ (if dir != "" then sep else "") ++ name ++ "." ++ handlerName

/-- The output name computed for a discovered function (index.ts line
216): `join(apiDir, parsePath(funcName).name)`. -/
def outputNameModel (apiDir funcName : String) : String :=
  joinModel apiDir (nodeName (basenameStr funcName))

/-- The warning-forwarding loop (index.ts lines 259-263): a warning is
surfaced through `debug` only when its `stack` is truthy, with the first
`Error: ` rewritten to `Warning: `. -/
def forwardWarnings (warnings : List (Option String)) : List String :=
  warnings.filterMap (fun w =>
    match w with
    | some s => if s != "" then some (replaceFirst s "Error: " "Warning: ") else none
    | none => none)

/-- The `allFiles` loop of the packaging phase (index.ts lines 265-272):
each traced path gets a freshly created `FileFsRef` keyed by its
project-relative path. -/
def packageFiles (workPath : String) (allFiles : List String)
    (acc : List (String × FileFsRefM)) (nextId : Nat) :
    List (String × FileFsRefM) × Nat :=
  match allFiles with
  | [] => (acc, nextId)
  | p :: rest =>
    let alloc := fromFsPath (joinModel workPath p) nextId
    packageFiles workPath rest (objInsert acc p alloc.1) alloc.2

/-- The inputs of the packaging loop that stay fixed across iterations.
`trace` is the external `nodeFileTrace` oracle (it may reject);
`lambdaOptions` is `getLambdaOptionsFromFunction`, keyed by the derived
source file, yielding the memory and duration limits. -/
structure BuildCtx where
  workPath : String
  apiDir : String
  sep : String
  trace : String → Except String TraceResult
  lambdaOptions : String → Option Nat × Option Nat

/-- One iteration of the packaging loop (index.ts lines 215-291) for the
function discovered as `funcName ↦ fileFsRef`: computes the output name,
handler references and source file, runs the trace, forwards warnings,
assembles the lambda's file map (traced files freshly resolved, then the
entrypoint's own glob reference stored over its key) and the lambda.
Returns the key-value pair for `lambdaOutputs`, the allocation counter,
and the forwarded warnings. -/
def processFunction (ctx : BuildCtx) (funcName : String) (fileFsRef : FileFsRefM)
    (nextId : Nat) :
    Except String ((String × NodejsLambdaM) × Nat × List String) := do
  let outputName := outputNameModel ctx.apiDir funcName
  let absEntrypoint := fileFsRef.fsPath
  let relativeEntrypoint := relativeModel ctx.workPath absEntrypoint
  let awsLambdaHandler := getAWSLambdaHandlerM ctx.sep relativeEntrypoint "handler"
  let sourceFile := replaceFirst relativeEntrypoint "/dist/" "/src/"
  let tr ← ctx.trace absEntrypoint
  let forwarded := forwardWarnings tr.warnings
  let allFiles := tr.fileList ++ tr.esmFileList
  let packed := packageFiles ctx.workPath allFiles [] nextId
  let lambdaFiles := objInsert packed.1 (relativeModel ctx.workPath fileFsRef.fsPath) fileFsRef
  let limits := ctx.lambdaOptions sourceFile
  pure ((outputName,
         ⟨lambdaFiles, relativeEntrypoint, limits.1, limits.2, awsLambdaHandler⟩),
        packed.2, forwarded)

/-- The packaging loop over all discovered functions: each iteration's
key-value pair is assigned into `lambdaOutputs`; an error from any
iteration propagates (the loop body has no catch). -/
def buildLoop (ctx : BuildCtx) (funcs : List (String × FileFsRefM))
    (acc : List (String × NodejsLambdaM)) (nextId : Nat) (log : List String) :
    Except String (List (String × NodejsLambdaM) × Nat × List String) :=
  match funcs with
  | [] => .ok (acc, nextId, log)
  | (fn, ref) :: rest => do
    let step ← processFunction ctx fn ref nextId
    buildLoop ctx rest (objInsert acc step.1.1 step.1.2) step.2.1 (log ++ step.2.2)

/-- An entry of the returned `output` object: a static asset or a lambda. -/
inductive OutputItem where
  | staticAsset (a : StaticAsset)
  | lambda (l : NodejsLambdaM)
deriving DecidableEq, Repr

/-- The value `build` returns: the merged output object and the routing
configuration (route transformation by `@vercel/routing-utils` is
external). -/
structure ManifestM where
  output : List (String × OutputItem)
  routesConfig : RoutesNowConfig
deriving DecidableEq, Repr

/-- The packaging phase of `build` (index.ts lines 167-317): classify the
static output, package every discovered function, then return
`\x7b...staticOutputs, ...lambdaOutputs\x7d` together with the routing
configuration.  Any error from the loop propagates and no manifest is
returned. -/
def modelBuild (ctx : BuildCtx) (staticFiles : List String)
    (funcs : List (String × FileFsRefM)) (n0 : Nat) :
    Except String (ManifestM × List String) := do
  let staticOutputs := staticOutputsModel (joinModel ctx.workPath "web/dist") staticFiles
  let looped ← buildLoop ctx funcs [] n0 []
  let merged := objSpread
    (staticOutputs.map (fun p => (p.1, OutputItem.staticAsset p.2)))
    (looped.1.map (fun p => (p.1, OutputItem.lambda p.2)))
  pure (⟨merged, defaultRoutesNowConfig staticFiles⟩, looped.2.2)

/-- What the file system holds at a path, as seen through `readFileSync`
plus `lstatSync`: regular content with a mode, a missing path (`ENOENT`),
a directory (`EISDIR`), or any other failure. -/
inductive FsVal where
  | file (data : String) (mode : Nat)
  | missing
  | dir
  | errOther (msg : String)
deriving DecidableEq, Repr

/-- An entry of the `fsCache` table: `readFile` stores a `FileFsRef` for a
symbolic link and a `FileBlob` otherwise (index.ts lines 239-245). -/
inductive CacheFileM where
  | fsRef (fsPath : String) (mode : Nat)
  | blob (data : String) (mode : Nat)
deriving DecidableEq, Repr

/-- The two mutable tables created before the packaging loop (index.ts
lines 212-213) and shared by every trace of the run: `sourceCache` maps a
project-relative path to its raw content, with `none` as the cached
`null` marking a miss; `fsCache` holds the parsed file references. -/
structure CacheState where
  sourceCache : List (String × Option String)
  fsCache : List (String × CacheFileM)
deriving DecidableEq, Repr

/-- What one `readFile` call hands back to the tracer: content, the
`null` standing for not-found, or a thrown error. -/
inductive ReadOutcome where
  | content (s : String)
  | notFound
  | fatal (msg : String)
deriving DecidableEq, Repr

/-- The `readFile` callback given to `nodeFileTrace` (index.ts lines
230-255).  A cached content value is returned at once (a `Buffer` is
always truthy, the empty one included); a cached `null` is returned as
not-found; otherwise the real file system is consulted, content and a
parsed reference are cached, `ENOENT`/`EISDIR` cache `null`, and any
other failure is rethrown uncached.  The final component counts the real
file-system calls the invocation performed. -/
def readFileModel (fs : String → FsVal) (workPath : String) (st : CacheState)
    (fsPath : String) : ReadOutcome × CacheState × Nat :=
  let relPath := relativeModel workPath fsPath
  match objGet st.sourceCache relPath with
  | some (some c) => (.content c, st, 0)
  | some none => (.notFound, st, 0)
  | none =>
    match fs fsPath with
    | .file data mode =>
      let entry := if isSymbolicLink mode then CacheFileM.fsRef fsPath mode
                   else CacheFileM.blob data mode
      (.content data,
       ⟨objInsert st.sourceCache relPath (some data), objInsert st.fsCache relPath entry⟩,
       2)
    | .missing => (.notFound, ⟨objInsert st.sourceCache relPath none, st.fsCache⟩, 1)
    | .dir => (.notFound, ⟨objInsert st.sourceCache relPath none, st.fsCache⟩, 1)
    | .errOther msg => (.fatal msg, st, 1)

/-- The cache state after a sequence of further `readFile` calls on
arbitrary paths, e.g. the remainder of one trace or the traces of later
entrypoints. -/
def runReads (fs : String → FsVal) (workPath : String) (st : CacheState)
    (qs : List String) : CacheState :=
  qs.foldl (fun s q => (readFileModel fs workPath s q).2.1) st

/-- The output name as the specification words it, for comparison with
`outputNameModel`: the API mount prefix joined with the entrypoint's path
relative to the functions directory, extension stripped, directory
nesting preserved. -/
def specOutputName (apiDir funcName : String) : String :=
  joinModel apiDir (joinModel (parseDir funcName) (nodeName (basenameStr funcName)))

/-- Proof-side accessor: the file entry stored for path `p` inside the
lambda at output name `k` of a build result, when all of these exist. -/
def manifestFileEntry (r : Except String (ManifestM × List String))
    (k p : String) : Option FileFsRefM :=
  match r with
  | .ok m =>
    match objGet m.1.output k with
    | some (.lambda l) => objGet l.files p
    | _ => none
  | .error _ => none

/-- Proof-side abbreviation: the outcome a cached `sourceCache` entry
produces on a later read. -/
def cacheOutcome : Option String → ReadOutcome
  | some c => .content c
  | none => .notFound

/-- Fixture: a context whose trace oracle always succeeds with an empty
closure. -/
def ctxCollide : BuildCtx :=
  ⟨"/w", "api", "/", fun _ => .ok ⟨[], [], []⟩, fun _ => (none, none)⟩

/-- Fixture: a top-level function and a nested function whose computed
output names collide. -/
def funcsCollide : List (String × FileFsRefM) :=
  [("graphql.js", ⟨"/w/api/dist/functions/graphql.js", 0⟩),
   ("sub/graphql.js", ⟨"/w/api/dist/functions/sub/graphql.js", 1⟩)]

/-- Fixture: a context whose trace oracle rejects one specific
entrypoint and succeeds on every other. -/
def ctxFail : BuildCtx :=
  ⟨"/w", "api", "/",
   fun p => if p == "/w/api/dist/functions/bad.js" then .error "boom"
            else .ok ⟨[], [], []⟩,
   fun _ => (none, none)⟩

/-- Fixture: a function that packages fine, followed by a function whose
trace fails. -/
def funcsFail : List (String × FileFsRefM) :=
  [("good.js", ⟨"/w/api/dist/functions/good.js", 0⟩),
   ("bad.js", ⟨"/w/api/dist/functions/bad.js", 1⟩)]

/-- Fixture: a context whose trace oracle reports the same shared
dependency for every entrypoint. -/
def ctxShared : BuildCtx :=
  ⟨"/w", "api", "/", fun _ => .ok ⟨["node_modules/dep/index.js"], [], []⟩,
   fun _ => (none, none)⟩

/-- Fixture: two functions that share the traced dependency. -/
def funcsShared : List (String × FileFsRefM) :=
  [("a.js", ⟨"/w/api/dist/functions/a.js", 0⟩),
   ("b.js", ⟨"/w/api/dist/functions/b.js", 1⟩)]

/-- Fixture: a file system with one regular file, one missing path and
one path whose access fails with a non-missing error. -/
def fsFixture : String → FsVal := fun p =>
  if p == "/w/a.js" then .file "content-a" 0o100644
  else if p == "/w/bad.js" then .errOther "EACCES"
  else .missing

/-- Fixture: the cache state after the first read of `/w/a.js`. -/
def stAfterRead : CacheState :=
  ⟨[("a.js", some "content-a")], [("a.js", .blob "content-a" 0o100644)]⟩

/-- Fixture: the cache state after the first miss of `/w/miss.js`. -/
def stAfterMiss : CacheState :=
  ⟨[("miss.js", none)], []⟩

/-- Fixture: a context whose trace oracle emits one warning carrying a
stack. -/
def ctxWarn : BuildCtx :=
  ⟨"/w", "api", "/", fun _ => .ok ⟨[], [], [some "Error: x"]⟩,
   fun _ => (none, none)⟩

/-- Fixture: a trace oracle identical to `ctxWarn`'s but silent. -/
def traceQuiet : String → Except String TraceResult :=
  fun _ => .ok ⟨[], [], []⟩

/-- Rebuilding a string from its character list is the identity. -/
theorem string_mk_toList (s : String) : String.mk s.toList = s := by
  cases s
  rfl

/-- Character list of a concatenation. -/
theorem strToList_append (a b : String) : (a ++ b).toList = a.toList ++ b.toList :=
  String.data_append a b

/-- A string with a non-empty character list is non-empty, and
conversely. -/
theorem strToList_ne_nil {s : String} (h : s ≠ "") : s.toList ≠ [] := by
  intro hc
  exact h (by cases s with | mk l => cases hc; rfl)

/-- A `takeWhile` run stops exactly at the first failing element. -/
theorem takeWhile_append_stop {p : Char → Bool} (xs : List Char) (y : Char)
    (ys : List Char) (hxs : ∀ c ∈ xs, p c = true) (hy : p y = false) :
    (xs ++ y :: ys).takeWhile p = xs := by
  induction xs with
  | nil => simp [List.takeWhile_cons, hy]
  | cons c cs ih =>
    have hc : p c = true := hxs c (by simp)
    simp [List.takeWhile_cons, hc]
    exact ih (fun d hd => hxs d (by simp [hd]))

/-- A `dropWhile` run drops exactly up to the first failing element. -/
theorem dropWhile_append_stop {p : Char → Bool} (xs : List Char) (y : Char)
    (ys : List Char) (hxs : ∀ c ∈ xs, p c = true) (hy : p y = false) :
    (xs ++ y :: ys).dropWhile p = y :: ys := by
  induction xs with
  | nil => simp [List.dropWhile_cons, hy]
  | cons c cs ih =>
    have hc : p c = true := hxs c (by simp)
    simp [List.dropWhile_cons, hc]
    exact ih (fun d hd => hxs d (by simp [hd]))

/-- In the replace branch of `objInsert`, the assigned key is found with
the new value. -/
theorem find?_replace_self {α : Type} (m : List (String × α)) (k : String) (v : α)
    (h : m.any (fun p => p.1 == k) = true) :
    (m.map (fun p => if p.1 == k then (k, v) else p)).find? (fun p => p.1 == k) =
      some (k, v) := by
  induction m with
  | nil => cases h
  | cons q qs ih =>
    cases hq : (q.1 == k) with
    | true =>
      simp only [List.map_cons, hq, if_true, List.find?_cons, beq_self_eq_true]
    | false =>
      have h' : qs.any (fun p => p.1 == k) = true := by
        simpa [List.any_cons, hq] using h
      simp only [List.map_cons, hq, Bool.false_eq_true, if_false, List.find?_cons]
      exact ih h'

/-- In the replace branch of `objInsert`, every key other than the
assigned one is looked up unchanged. -/
theorem find?_replace_ne {α : Type} (m : List (String × α)) (k : String) (v : α)
    (k' : String) (hk : k' ≠ k) :
    (m.map (fun p => if p.1 == k then (k, v) else p)).find? (fun p => p.1 == k') =
      m.find? (fun p => p.1 == k') := by
  induction m with
  | nil => rfl
  | cons q qs ih =>
    cases hq : (q.1 == k) with
    | true =>
      have hqe : q.1 = k := beq_iff_eq.mp hq
      have h1 : (k == k') = false := beq_eq_false_iff_ne.mpr (fun he => hk he.symm)
      have h2 : (q.1 == k') = false := by rw [hqe]; exact h1
      simp only [List.map_cons, hq, if_true, List.find?_cons, h1, h2]
      exact ih
    | false =>
      simp only [List.map_cons, hq, Bool.false_eq_true, if_false, List.find?_cons]
      cases hq' : (q.1 == k') with
      | true => rfl
      | false => exact ih

/-- In the append branch of `objInsert`, the fresh pair is found exactly
for the assigned key. -/
theorem find?_append_single {α : Type} (m : List (String × α)) (k : String) (v : α)
    (k' : String) (h : m.any (fun p => p.1 == k) = false) :
    (m ++ [(k, v)]).find? (fun p => p.1 == k') =
      if k' = k then some (k, v) else m.find? (fun p => p.1 == k') := by
  induction m with
  | nil =>
    by_cases hk : k' = k
    · simp [List.find?_cons, hk, beq_self_eq_true]
    · have : (k == k') = false := beq_eq_false_iff_ne.mpr (fun he => hk he.symm)
      simp [List.find?_cons, this, hk]
  | cons q qs ih =>
    have hq : (q.1 == k) = false := by
      cases hv : (q.1 == k) with
      | true => simp [List.any_cons, hv] at h
      | false => rfl
    have h' : qs.any (fun p => p.1 == k) = false := by
      simpa [List.any_cons, hq] using h
    simp only [List.cons_append, List.find?_cons]
    cases hq' : (q.1 == k') with
    | true =>
      have hqe : q.1 = k' := beq_iff_eq.mp hq'
      have hk : ¬(k' = k) := by
        intro he
        apply absurd hq
        rw [hqe, he]
        simp
      simp [hk]
    | false =>
      rw [ih h']

/-- Characterization of JavaScript assignment followed by lookup: the
assigned key now maps to the new value, every other key is untouched. -/
theorem objGet_objInsert {α : Type} (m : List (String × α)) (k : String) (v : α)
    (k' : String) :
    objGet (objInsert m k v) k' = if k' = k then some v else objGet m k' := by
  unfold objGet objInsert
  cases h : m.any (fun p => p.1 == k) with
  | true =>
    simp only [if_true]
    by_cases hk : k' = k
    · subst hk
      rw [find?_replace_self m k' v h]
      simp
    · rw [find?_replace_ne m k v k' hk]
      simp [hk]
  | false =>
    simp only [Bool.false_eq_true, if_false]
    rw [find?_append_single m k v k' h]
    by_cases hk : k' = k
    · simp [hk]
    · simp [hk]

/-- Replacing a key's value in place never changes the key list. -/
theorem map_replace_keys {α : Type} (m : List (String × α)) (k : String) (v : α) :
    (m.map (fun p => if p.1 == k then (k, v) else p)).map Prod.fst =
      m.map Prod.fst := by
  induction m with
  | nil => rfl
  | cons q qs ih =>
    cases hq : (q.1 == k) with
    | true =>
      have hqe : q.1 = k := beq_iff_eq.mp hq
      simp only [List.map_cons, hq, if_true, ih]
      simp [hqe]
    | false =>
      simp only [List.map_cons, hq, Bool.false_eq_true, if_false, ih]

/-- The key list after a JavaScript assignment: unchanged when the key
was present, extended by the key otherwise. -/
theorem objInsert_keys {α : Type} (m : List (String × α)) (k : String) (v : α) :
    (objInsert m k v).map Prod.fst =
      if m.any (fun p => p.1 == k) then m.map Prod.fst
      else m.map Prod.fst ++ [k] := by
  unfold objInsert
  cases h : m.any (fun p => p.1 == k) with
  | true =>
    simp only [if_true]
    exact map_replace_keys m k v
  | false =>
    simp

/-- JavaScript assignment keeps a duplicate-free key list duplicate
free. -/
theorem objInsert_keys_nodup {α : Type} (m : List (String × α)) (k : String) (v : α)
    (h : (m.map Prod.fst).Nodup) : ((objInsert m k v).map Prod.fst).Nodup := by
  rw [objInsert_keys]
  cases hc : m.any (fun p => p.1 == k) with
  | true => simpa using h
  | false =>
    simp only [Bool.false_eq_true, if_false]
    refine List.nodup_append.mpr ⟨h, List.nodup_singleton k, ?_⟩
    intro x hx hk1
    have hxk : x = k := by simpa using hk1
    subst hxk
    rcases List.mem_map.mp hx with ⟨p, hp, hpk⟩
    have := List.any_eq_false.mp hc p hp
    exact this (by simp [hpk])

/-- The last path component of a string splitting as `a ++ "/" ++ b` with
a slash-free tail `b` is `b`. -/
theorem basenameStr_of_split (s a b : String)
    (hs : s.toList = a.toList ++ '/' :: b.toList)
    (hb : ∀ c ∈ b.toList, c ≠ '/') : basenameStr s = b := by
  unfold basenameStr
  rw [hs]
  have hshape : (a.toList ++ '/' :: b.toList).reverse =
      b.toList.reverse ++ '/' :: a.toList.reverse := by
    simp
  rw [hshape]
  rw [takeWhile_append_stop b.toList.reverse '/' a.toList.reverse
      (fun c hc => decide_eq_true (hb c (List.mem_reverse.mp hc))) (by decide)]
  simp [string_mk_toList]

/-- A slash-free string is its own last path component. -/
theorem basenameStr_noslash (s : String) (hs : ∀ c ∈ s.toList, c ≠ '/') :
    basenameStr s = s := by
  unfold basenameStr
  rw [List.takeWhile_eq_self_iff.mpr
      (fun c hc => decide_eq_true (hs c (List.mem_reverse.mp hc)))]
  simp [string_mk_toList]

/-- The parsed directory of a string splitting as `a ++ "/" ++ b` with a
slash-free tail `b` is `a`. -/
theorem parseDir_of_split (s a b : String)
    (hs : s.toList = a.toList ++ '/' :: b.toList)
    (hb : ∀ c ∈ b.toList, c ≠ '/') : parseDir s = a := by
  unfold parseDir
  rw [hs]
  have hshape : (a.toList ++ '/' :: b.toList).reverse =
      b.toList.reverse ++ '/' :: a.toList.reverse := by
    simp
  rw [hshape]
  rw [dropWhile_append_stop b.toList.reverse '/' a.toList.reverse
      (fun c hc => decide_eq_true (hb c (List.mem_reverse.mp hc))) (by decide)]
  simp [string_mk_toList]

/-- The relative-path model strips the base prefix from a path lying under it. -/
theorem relativeModel_of_split (base p rest : String)
    (hp : p.toList = base.toList ++ '/' :: rest.toList) :
    relativeModel base p = rest := by
  unfold relativeModel
  have hpre : (base ++ "/").toList = base.toList ++ ['/'] := by
    rw [strToList_append]
    rfl
  have hp2 : p.toList = (base.toList ++ ['/']) ++ rest.toList := by
    rw [hp]
    simp
  have hpre2 : ((base ++ "/").toList).isPrefixOf p.toList = true := by
    rw [hpre, hp2]
    exact List.isPrefixOf_iff_prefix.mpr ⟨rest.toList, rfl⟩
  simp only [hpre2, if_true]
  rw [hp2, hpre]
  rw [List.drop_left]
  exact string_mk_toList rest

/-- A basename obtained by appending `.html` to a non-empty stem parses
with extension `.html`. -/
theorem nodeExt_concat_html (y : String) (hy : y ≠ "") :
    nodeExt (y ++ ".html") = ".html" := by
  unfold nodeExt
  have hcs : (y ++ ".html").toList = y.toList ++ ['.', 'h', 't', 'm', 'l'] := by
    rw [strToList_append]
    rfl
  have hrev : (y.toList ++ ['.', 'h', 't', 'm', 'l']).reverse =
      ['l', 'm', 't', 'h'] ++ '.' :: y.toList.reverse := by
    simp
  have htake : (['l', 'm', 't', 'h'] ++ '.' :: y.toList.reverse).takeWhile
      (fun c => c ≠ '.') = ['l', 'm', 't', 'h'] :=
    takeWhile_append_stop _ _ _ (by decide) (by decide)
  have hlen : (y ++ ".html").toList.length = y.toList.length + 5 := by
    rw [hcs, List.length_append]
    rfl
  have hpos : 0 < y.toList.length :=
    List.length_pos.mpr (strToList_ne_nil hy)
  simp only [hcs, hrev, htake]
  rw [if_pos]
  · rfl
  · simp only [List.length_append, List.length_cons, List.length_nil]
    omega

/-- Node `basename(path, ".html")` on a path whose slash-free basename is
a non-empty stem plus `.html` returns the stem. -/
theorem nodeBasename_strip (d y : String) (hy : y ≠ "")
    (hb : ∀ c ∈ (y ++ ".html").toList, c ≠ '/') :
    nodeBasename (joinModel d (y ++ ".html")) ".html" = y := by
  unfold nodeBasename
  have hbase : basenameStr (joinModel d (y ++ ".html")) = y ++ ".html" := by
    by_cases hd : d = ""
    · rw [hd]
      show basenameStr (joinModel "" (y ++ ".html")) = y ++ ".html"
      rw [show joinModel "" (y ++ ".html") = y ++ ".html" from rfl]
      exact basenameStr_noslash _ hb
    · have hdj : joinModel d (y ++ ".html") = d ++ "/" ++ (y ++ ".html") := by
        unfold joinModel
        rw [if_neg (by simpa using hd)]
      rw [hdj]
      refine basenameStr_of_split _ d (y ++ ".html") ?_ hb
      rw [strToList_append, strToList_append]
      simp
  rw [hbase]
  have hcs : (y ++ ".html").toList = y.toList ++ ['.', 'h', 't', 'm', 'l'] := by
    rw [strToList_append]
    rfl
  have hne : (y ++ ".html") ≠ ".html" := by
    intro he
    have := congrArg (fun s => s.toList.length) he
    simp only [hcs, List.length_append] at this
    have hpos : 0 < y.toList.length := List.length_pos.mpr (strToList_ne_nil hy)
    have : y.toList.length + 5 = 5 := by simpa using this
    omega
  have hbne : ((y ++ ".html") != ".html") = true := bne_iff_ne.mpr hne
  have hsuf : (".html" : String).toList.isSuffixOf (y ++ ".html").toList = true := by
    refine List.isSuffixOf_iff_suffix.mpr ?_
    rw [hcs]
    exact List.suffix_append y.toList _
  have hlen : (y ++ ".html").toList.length - (".html" : String).toList.length =
      y.toList.length := by
    rw [hcs, List.length_append]
    rfl
  simp only [hbne, hsuf, Bool.and_self, if_true]
  rw [hlen, hcs, List.take_left]
  exact string_mk_toList y

/-- The allocation counter advances by exactly the number of traced
files. -/
theorem packageFiles_snd (wp : String) (files : List String)
    (acc : List (String × FileFsRefM)) (n : Nat) :
    (packageFiles wp files acc n).2 = n + files.length := by
  induction files generalizing acc n with
  | nil => rfl
  | cons q rest ih =>
    show (packageFiles wp rest _ (n + 1)).2 = _
    rw [ih]
    simp [Nat.add_comm, Nat.add_assoc, Nat.add_left_comm]

/-- Every entry the `allFiles` loop stores was either already in the
accumulator or carries an id allocated during this run of the loop. -/
theorem packageFiles_range (wp : String) (files : List String)
    (acc : List (String × FileFsRefM)) (n : Nat) (p : String) (e : FileFsRefM)
    (h : objGet (packageFiles wp files acc n).1 p = some e) :
    objGet acc p = some e ∨
      (n ≤ e.instanceId ∧ e.instanceId < n + files.length) := by
  induction files generalizing acc n with
  | nil => exact Or.inl h
  | cons q rest ih =>
    have h' : objGet (packageFiles wp rest
        (objInsert acc q ⟨joinModel wp q, n⟩) (n + 1)).1 p = some e := h
    rcases ih _ _ h' with hacc | hrange
    · rw [objGet_objInsert] at hacc
      by_cases hpq : p = q
      · rw [if_pos hpq] at hacc
        have : e = ⟨joinModel wp q, n⟩ := (Option.some_injective _ hacc).symm
        right
        rw [this]
        constructor
        · exact Nat.le_refl n
        · simp only [List.length_cons]
          omega
      · rw [if_neg hpq] at hacc
        exact Or.inl hacc
    · right
      simp only [List.length_cons]
      omega

/-- The `allFiles` loop keeps the file map's key list duplicate free. -/
theorem packageFiles_keys_nodup (wp : String) (files : List String)
    (acc : List (String × FileFsRefM)) (n : Nat)
    (h : (acc.map Prod.fst).Nodup) :
    (((packageFiles wp files acc n).1).map Prod.fst).Nodup := by
  induction files generalizing acc n with
  | nil => exact h
  | cons q rest ih => exact ih _ _ (objInsert_keys_nodup acc q _ h)

/-- A successful trace makes one loop iteration deterministic: the stored
key-value pair, counter and forwarded warnings are exactly these. -/
theorem processFunction_eq_ok (ctx : BuildCtx) (fn : String) (ref : FileFsRefM)
    (n : Nat) (tr : TraceResult) (h : ctx.trace ref.fsPath = .ok tr) :
    processFunction ctx fn ref n = .ok
      ((outputNameModel ctx.apiDir fn,
        ⟨objInsert (packageFiles ctx.workPath (tr.fileList ++ tr.esmFileList) [] n).1
           (relativeModel ctx.workPath ref.fsPath) ref,
         relativeModel ctx.workPath ref.fsPath,
         (ctx.lambdaOptions
           (replaceFirst (relativeModel ctx.workPath ref.fsPath) "/dist/" "/src/")).1,
         (ctx.lambdaOptions
           (replaceFirst (relativeModel ctx.workPath ref.fsPath) "/dist/" "/src/")).2,
         getAWSLambdaHandlerM ctx.sep (relativeModel ctx.workPath ref.fsPath) "handler"⟩),
       (packageFiles ctx.workPath (tr.fileList ++ tr.esmFileList) [] n).2,
       forwardWarnings tr.warnings) := by
  simp only [processFunction]
  rw [h]
  rfl

/-- A failing trace makes the iteration fail with the same error. -/
theorem processFunction_eq_err (ctx : BuildCtx) (fn : String) (ref : FileFsRefM)
    (n : Nat) (e : String) (h : ctx.trace ref.fsPath = .error e) :
    processFunction ctx fn ref n = .error e := by
  simp only [processFunction]
  rw [h]
  rfl

/-- Inversion of a successful loop iteration: it came from a successful
trace, and each component has its canonical shape. -/
theorem processFunction_ok_inv (ctx : BuildCtx) (fn : String) (ref : FileFsRefM)
    (n : Nat) (kv : String × NodejsLambdaM) (n2 : Nat) (fw : List String)
    (h : processFunction ctx fn ref n = .ok (kv, n2, fw)) :
    ∃ tr, ctx.trace ref.fsPath = .ok tr ∧
      kv.1 = outputNameModel ctx.apiDir fn ∧
      kv.2.files =
        objInsert (packageFiles ctx.workPath (tr.fileList ++ tr.esmFileList) [] n).1
          (relativeModel ctx.workPath ref.fsPath) ref ∧
      n2 = (packageFiles ctx.workPath (tr.fileList ++ tr.esmFileList) [] n).2 ∧
      fw = forwardWarnings tr.warnings := by
  cases htr : ctx.trace ref.fsPath with
  | error e =>
    rw [processFunction_eq_err ctx fn ref n e htr] at h
    cases h
  | ok tr =>
    rw [processFunction_eq_ok ctx fn ref n tr htr] at h
    injection h with h1
    have hkv : kv = (outputNameModel ctx.apiDir fn,
        ⟨objInsert (packageFiles ctx.workPath (tr.fileList ++ tr.esmFileList) [] n).1
           (relativeModel ctx.workPath ref.fsPath) ref,
         relativeModel ctx.workPath ref.fsPath,
         (ctx.lambdaOptions
           (replaceFirst (relativeModel ctx.workPath ref.fsPath) "/dist/" "/src/")).1,
         (ctx.lambdaOptions
           (replaceFirst (relativeModel ctx.workPath ref.fsPath) "/dist/" "/src/")).2,
         getAWSLambdaHandlerM ctx.sep (relativeModel ctx.workPath ref.fsPath) "handler"⟩) :=
      (congrArg Prod.fst h1).symm
    have hn : n2 = (packageFiles ctx.workPath (tr.fileList ++ tr.esmFileList) [] n).2 :=
      (congrArg (fun t => t.2.1) h1).symm
    have hfw : fw = forwardWarnings tr.warnings :=
      (congrArg (fun t => t.2.2) h1).symm
    exact ⟨tr, rfl, by rw [hkv], by rw [hkv], hn, hfw⟩

/-- One successful step of the packaging loop. -/
theorem buildLoop_cons_ok (ctx : BuildCtx) (fn : String) (ref : FileFsRefM)
    (rest : List (String × FileFsRefM)) (acc : List (String × NodejsLambdaM))
    (n : Nat) (log : List String) (kv : String × NodejsLambdaM) (n2 : Nat)
    (fw : List String) (h : processFunction ctx fn ref n = .ok (kv, n2, fw)) :
    buildLoop ctx ((fn, ref) :: rest) acc n log =
      buildLoop ctx rest (objInsert acc kv.1 kv.2) n2 (log ++ fw) := by
  simp only [buildLoop]
  rw [h]
  rfl

/-- A failing step aborts the packaging loop with the same error. -/
theorem buildLoop_cons_err (ctx : BuildCtx) (fn : String) (ref : FileFsRefM)
    (rest : List (String × FileFsRefM)) (acc : List (String × NodejsLambdaM))
    (n : Nat) (log : List String) (e : String)
    (h : processFunction ctx fn ref n = .error e) :
    buildLoop ctx ((fn, ref) :: rest) acc n log = .error e := by
  simp only [buildLoop]
  rw [h]
  rfl

/-- A failing packaging loop aborts the whole build with the same
error. -/
theorem modelBuild_err_of_loop (ctx : BuildCtx) (staticFiles : List String)
    (funcs : List (String × FileFsRefM)) (n0 : Nat) (e : String)
    (h : buildLoop ctx funcs [] n0 [] = .error e) :
    modelBuild ctx staticFiles funcs n0 = .error e := by
  simp only [modelBuild]
  rw [h]
  rfl

/-- A read of a path whose `sourceCache` entry exists returns the cached
value, changes nothing and touches no file system. -/
theorem readFileModel_hit (fs : String → FsVal) (wp : String) (st : CacheState)
    (p : String) (o : Option String)
    (h : objGet st.sourceCache (relativeModel wp p) = some o) :
    readFileModel fs wp st p = (cacheOutcome o, st, 0) := by
  simp only [readFileModel]
  rw [h]
  cases o with
  | some c => rfl
  | none => rfl

/-- After a read whose outcome is not a thrown error, the path's
`sourceCache` entry exists and reproduces that outcome. -/
theorem readFileModel_resolves (fs : String → FsVal) (wp : String) (st : CacheState)
    (p : String) (r : ReadOutcome) (st2 : CacheState) (a : Nat)
    (h : readFileModel fs wp st p = (r, st2, a))
    (hnf : ∀ msg, r ≠ .fatal msg) :
    ∃ o, objGet st2.sourceCache (relativeModel wp p) = some o ∧ r = cacheOutcome o := by
  simp only [readFileModel] at h
  cases hc : objGet st.sourceCache (relativeModel wp p) with
  | some o =>
    rw [hc] at h
    cases o with
    | some c =>
      have hr : ReadOutcome.content c = r := congrArg Prod.fst h
      have hst : st = st2 := congrArg (fun t => t.2.1) h
      exact ⟨some c, hst ▸ hc, hr.symm⟩
    | none =>
      have hr : ReadOutcome.notFound = r := congrArg Prod.fst h
      have hst : st = st2 := congrArg (fun t => t.2.1) h
      exact ⟨none, hst ▸ hc, hr.symm⟩
  | none =>
    rw [hc] at h
    cases hf : fs p with
    | file data mode =>
      rw [hf] at h
      have hr : ReadOutcome.content data = r := congrArg Prod.fst h
      have hst : (⟨objInsert st.sourceCache (relativeModel wp p) (some data),
          objInsert st.fsCache (relativeModel wp p)
            (if isSymbolicLink mode then CacheFileM.fsRef p mode
             else CacheFileM.blob data mode)⟩ : CacheState) = st2 :=
        congrArg (fun t => t.2.1) h
      refine ⟨some data, ?_, hr.symm⟩
      rw [← hst]
      simp [objGet_objInsert]
    | missing =>
      rw [hf] at h
      have hr : ReadOutcome.notFound = r := congrArg Prod.fst h
      have hst : (⟨objInsert st.sourceCache (relativeModel wp p) none,
          st.fsCache⟩ : CacheState) = st2 :=
        congrArg (fun t => t.2.1) h
      refine ⟨none, ?_, hr.symm⟩
      rw [← hst]
      simp [objGet_objInsert]
    | dir =>
      rw [hf] at h
      have hr : ReadOutcome.notFound = r := congrArg Prod.fst h
      have hst : (⟨objInsert st.sourceCache (relativeModel wp p) none,
          st.fsCache⟩ : CacheState) = st2 :=
        congrArg (fun t => t.2.1) h
      refine ⟨none, ?_, hr.symm⟩
      rw [← hst]
      simp [objGet_objInsert]
    | errOther msg =>
      rw [hf] at h
      have hr : ReadOutcome.fatal msg = r := congrArg Prod.fst h
      exact absurd hr.symm (hnf msg)

/-- A read never removes or changes an existing `sourceCache` entry. -/
theorem readFileModel_preserves (fs : String → FsVal) (wp : String) (st : CacheState)
    (q : String) (key : String) (o : Option String)
    (h : objGet st.sourceCache key = some o) :
    objGet ((readFileModel fs wp st q).2.1).sourceCache key = some o := by
  simp only [readFileModel]
  cases hc : objGet st.sourceCache (relativeModel wp q) with
  | some o2 => cases o2 <;> exact h
  | none =>
    have hkq : key ≠ relativeModel wp q := by
      intro he
      rw [he, hc] at h
      cases h
    cases hf : fs q with
    | file data mode => simpa [objGet_objInsert, hkq] using h
    | missing => simpa [objGet_objInsert, hkq] using h
    | dir => simpa [objGet_objInsert, hkq] using h
    | errOther msg => exact h

/-- No sequence of later reads removes or changes an existing
`sourceCache` entry. -/
theorem runReads_preserves (fs : String → FsVal) (wp : String) (st : CacheState)
    (qs : List String) (key : String) (o : Option String)
    (h : objGet st.sourceCache key = some o) :
    objGet ((runReads fs wp st qs).sourceCache) key = some o := by
  induction qs generalizing st with
  | nil => exact h
  | cons q rest ih => exact ih _ (readFileModel_preserves fs wp st q key o h)

/-- Joining onto a non-empty prefix is plain concatenation. -/
theorem joinModel_ne (a b : String) (ha : a ≠ "") :
    joinModel a b = a ++ "/" ++ b := by
  unfold joinModel
  simp [beq_eq_false_iff_ne.mpr ha]

/-- Character list of a join onto a non-empty prefix. -/
theorem toList_join_ne (a b : String) (ha : a ≠ "") :
    (joinModel a b).toList = a.toList ++ '/' :: b.toList := by
  rw [joinModel_ne a b ha, strToList_append, strToList_append]
  simp

/-- A string holding a slash is non-empty. -/
theorem append_slash_ne (a b : String) : a ++ "/" ++ b ≠ "" := by
  intro he
  have h2 := congrArg String.toList he
  rw [strToList_append, strToList_append] at h2
  simp at h2

/-- Joining onto the empty prefix is the identity. -/
theorem joinModel_nil (b : String) : joinModel "" b = b := by
  unfold joinModel
  simp

/-- The separator's character list. -/
theorem slash_toList : ("/" : String).toList = ['/'] := rfl

/-- C3 counterexample: the claim predicts that a depth-one function keeps
its directory component (`specOutputName`), but the code computes the
output name from the basename alone: `bazinga/bazinga.js` becomes
`api/bazinga`, not `api/bazinga/bazinga`. -/
theorem c3_nested_output_name_counterexample :
    outputNameModel "api" "bazinga/bazinga.js" = "api/bazinga" ∧
    specOutputName "api" "bazinga/bazinga.js" = "api/bazinga/bazinga" ∧
    outputNameModel "api" "bazinga/bazinga.js" ≠
      specOutputName "api" "bazinga/bazinga.js" := by
  decide

/-- C3 (amended): the output name is the API mount prefix joined with the
entrypoint's basename with extension stripped; the directory component of
a nested function is dropped, so a depth-one entrypoint yields the same
output name as its bare basename. -/
theorem c3_output_name_drops_directory (apiDir d b : String)
    (hb : ∀ c ∈ b.toList, c ≠ '/') :
    outputNameModel apiDir (d ++ "/" ++ b) = outputNameModel apiDir b := by
  have hs : (d ++ "/" ++ b).toList = d.toList ++ '/' :: b.toList := by
    rw [strToList_append, strToList_append]
    simp
  unfold outputNameModel
  rw [basenameStr_of_split _ d b hs hb, basenameStr_noslash b hb]

/-- C3 witness: the amended theorem at the spec's own example. -/
theorem c3_output_name_drops_directory_witness :
    outputNameModel "api" "bazinga/bazinga.js" = outputNameModel "api" "bazinga.js" := by
  have h := c3_output_name_drops_directory "api" "bazinga" "bazinga.js" (by decide)
  exact h

/-- C4 counterexample: for the claim's example `functions/graphql.js` the
handler reference keeps its directory prefix (`functions/graphql.handler`,
not `graphql.handler`), and the reference depends on the platform path
separator rather than being normalized. -/
theorem c4_handler_reference_counterexample :
    getAWSLambdaHandlerM "/" "functions/graphql.js" "handler" =
      "functions/graphql.handler" ∧
    getAWSLambdaHandlerM "/" "functions/graphql.js" "handler" ≠ "graphql.handler" ∧
    getAWSLambdaHandlerM "\\" "functions/graphql.js" "handler" ≠
      getAWSLambdaHandlerM "/" "functions/graphql.js" "handler" := by
  decide

/-- C4 (amended): the handler reference is the entrypoint's full relative
path with the extension replaced by the handler symbol: directory prefix
kept and joined with the host platform's separator, then the parsed name,
a dot and the symbol. -/
theorem c4_handler_keeps_directory (sep d b h : String) (hd : d ≠ "")
    (hb : ∀ c ∈ b.toList, c ≠ '/') :
    getAWSLambdaHandlerM sep (d ++ "/" ++ b) h =
      d ++ sep ++ nodeName b ++ "." ++ h := by
  have hs : (d ++ "/" ++ b).toList = d.toList ++ '/' :: b.toList := by
    rw [strToList_append, strToList_append]
    simp
  unfold getAWSLambdaHandlerM
  rw [parseDir_of_split _ d b hs hb, basenameStr_of_split _ d b hs hb]
  show (d ++ if (d != "") = true then sep else "") ++ nodeName b ++ "." ++ h =
      d ++ sep ++ nodeName b ++ "." ++ h
  rw [if_pos (bne_iff_ne.mpr hd)]

/-- C4 witness: the amended theorem at the builder's actual relative
entrypoint shape. -/
theorem c4_handler_keeps_directory_witness :
    getAWSLambdaHandlerM "/" "api/dist/functions/graphql.js" "handler" =
      "api/dist/functions/graphql.handler" := by
  have h := c4_handler_keeps_directory "/" "api/dist/functions" "graphql.js"
    "handler" (by decide) (by decide)
  exact h.trans (by decide)

/-- C1 counterexample: two discovered functions computing the same output
name do not abort the run; the build returns a manifest whose single
entry holds the second function's lambda, the first one having been
silently overwritten. -/
theorem c1_collision_counterexample :
    modelBuild ctxCollide [] funcsCollide 100 = .ok
      (⟨[("api/graphql", .lambda
          ⟨[("api/dist/functions/sub/graphql.js",
             ⟨"/w/api/dist/functions/sub/graphql.js", 1⟩)],
           "api/dist/functions/sub/graphql.js", none, none,
           "api/dist/functions/sub/graphql.handler"⟩)],
        ⟨[⟨"/(.*)", "/index"⟩], true, false⟩⟩, []) ∧
    outputNameModel ctxCollide.apiDir "graphql.js" =
      outputNameModel ctxCollide.apiDir "sub/graphql.js" :=
  ⟨rfl, rfl⟩

/-- C1 (amended): when two discovered functions compute the same output
name the packaging loop does not abort; the run succeeds and the later
function's lambda silently overwrites the earlier one, leaving a single
entry under the shared name. -/
theorem c1_collision_overwrites (ctx : BuildCtx) (fn1 fn2 : String)
    (ref1 ref2 : FileFsRefM) (n : Nat) (k : String)
    (kv1 kv2 : String × NodejsLambdaM) (n1 n2 : Nat) (fw1 fw2 : List String)
    (hk1 : outputNameModel ctx.apiDir fn1 = k)
    (hk2 : outputNameModel ctx.apiDir fn2 = k)
    (hp1 : processFunction ctx fn1 ref1 n = .ok (kv1, n1, fw1))
    (hp2 : processFunction ctx fn2 ref2 n1 = .ok (kv2, n2, fw2)) :
    buildLoop ctx [(fn1, ref1), (fn2, ref2)] [] n [] =
      .ok ([(k, kv2.2)], n2, fw1 ++ fw2) := by
  obtain ⟨tr1, -, hkv1, -, -, -⟩ := processFunction_ok_inv ctx fn1 ref1 n kv1 n1 fw1 hp1
  obtain ⟨tr2, -, hkv2, -, -, -⟩ := processFunction_ok_inv ctx fn2 ref2 n1 kv2 n2 fw2 hp2
  rw [buildLoop_cons_ok ctx fn1 ref1 _ [] n [] kv1 n1 fw1 hp1]
  rw [buildLoop_cons_ok ctx fn2 ref2 _ _ n1 _ kv2 n2 fw2 hp2]
  rw [hkv1.trans hk1, hkv2.trans hk2]
  have hins : objInsert [(k, kv1.2)] k kv2.2 = [(k, kv2.2)] := by
    simp [objInsert, List.any_cons, beq_self_eq_true]
  show Except.ok (objInsert (objInsert [] k kv1.2) k kv2.2, n2, ([] ++ fw1) ++ fw2) = _
  rw [show objInsert ([] : List (String × NodejsLambdaM)) k kv1.2 = [(k, kv1.2)] from rfl]
  rw [hins]
  simp

/-- C1 witness: the amended theorem at the colliding fixture. -/
theorem c1_collision_overwrites_witness :
    buildLoop ctxCollide funcsCollide [] 100 [] = .ok
      ([("api/graphql",
         ⟨[("api/dist/functions/sub/graphql.js",
            ⟨"/w/api/dist/functions/sub/graphql.js", 1⟩)],
          "api/dist/functions/sub/graphql.js", none, none,
          "api/dist/functions/sub/graphql.handler"⟩)], 100, []) := by
  have h := c1_collision_overwrites ctxCollide "graphql.js" "sub/graphql.js"
    ⟨"/w/api/dist/functions/graphql.js", 0⟩
    ⟨"/w/api/dist/functions/sub/graphql.js", 1⟩ 100 "api/graphql"
    ("api/graphql",
      ⟨[("api/dist/functions/graphql.js", ⟨"/w/api/dist/functions/graphql.js", 0⟩)],
       "api/dist/functions/graphql.js", none, none,
       "api/dist/functions/graphql.handler"⟩)
    ("api/graphql",
      ⟨[("api/dist/functions/sub/graphql.js",
         ⟨"/w/api/dist/functions/sub/graphql.js", 1⟩)],
       "api/dist/functions/sub/graphql.js", none, none,
       "api/dist/functions/sub/graphql.handler"⟩)
    100 100 [] [] rfl rfl rfl rfl
  exact h

/-- C2 counterexample: with a function list holding one function that
packages fine followed by one whose packaging fails, the run aborts with
the error and no manifest is returned, so the healthy function's output
does not appear anywhere. -/
theorem c2_per_function_failure_counterexample :
    modelBuild ctxFail [] funcsFail 100 = .error "boom" := rfl

/-- C2 (amended): a per-function packaging failure is not caught at the
call site: it propagates out of the loop and the whole run aborts with
that error; no manifest is returned and the remaining functions are
never packaged. -/
theorem c2_failure_aborts_run (ctx : BuildCtx) (staticFiles : List String)
    (fn : String) (ref : FileFsRefM) (rest : List (String × FileFsRefM))
    (n0 : Nat) (e : String)
    (h : processFunction ctx fn ref n0 = .error e) :
    modelBuild ctx staticFiles ((fn, ref) :: rest) n0 = .error e :=
  modelBuild_err_of_loop ctx staticFiles _ n0 e
    (buildLoop_cons_err ctx fn ref rest [] n0 [] e h)

/-- C2 witness: the amended theorem at the failing fixture, with a
healthy function behind the failing one. -/
theorem c2_failure_aborts_run_witness :
    modelBuild ctxFail [] [("bad.js", ⟨"/w/api/dist/functions/bad.js", 1⟩),
      ("good.js", ⟨"/w/api/dist/functions/good.js", 0⟩)] 100 = .error "boom" := by
  have h := c2_failure_aborts_run ctxFail [] "bad.js"
    ⟨"/w/api/dist/functions/bad.js", 1⟩
    [("good.js", ⟨"/w/api/dist/functions/good.js", 0⟩)] 100 "boom" rfl
  exact h

/-- C8: the synthesized routing configuration holds exactly one catch-all
rewrite whose destination is `/200` when `200.html` exists at the static
root and `/index` otherwise, with clean URLs enabled and trailing slashes
disabled. -/
theorem c8_route_table_single_fallback_rule (staticFiles : List String) :
    (defaultRoutesNowConfig staticFiles).rewrites =
      [⟨"/(.*)", if staticFiles.contains "200.html" then "/200" else "/index"⟩] ∧
    (defaultRoutesNowConfig staticFiles).cleanUrls = true ∧
    (defaultRoutesNowConfig staticFiles).trailingSlash = false :=
  ⟨rfl, rfl, rfl⟩

/-- C5: cache coherence.  Once a path has been read through the cache and
the read did not throw, a later read of the same path — with arbitrary
interleaved reads for the same or other entrypoints in between — performs
no file-system access, returns the identical outcome, and leaves the
cache unchanged (the entry is never re-resolved). -/
theorem c5_cache_coherent (fs : String → FsVal) (wp : String) (st : CacheState)
    (p : String) (r : ReadOutcome) (st1 : CacheState) (a : Nat) (qs : List String)
    (h1 : readFileModel fs wp st p = (r, st1, a))
    (hnf : ∀ msg, r ≠ .fatal msg) :
    readFileModel fs wp (runReads fs wp st1 qs) p =
      (r, runReads fs wp st1 qs, 0) := by
  obtain ⟨o, ho, hro⟩ := readFileModel_resolves fs wp st p r st1 a h1 hnf
  have hp := runReads_preserves fs wp st1 qs _ o ho
  rw [readFileModel_hit fs wp _ p o hp, hro]

/-- C5 witness: read `/w/a.js`, read another path, read `/w/a.js` again:
the repeat is free and byte-identical. -/
theorem c5_cache_coherent_witness :
    readFileModel fsFixture "/w" (runReads fsFixture "/w" stAfterRead ["/w/b.js"])
        "/w/a.js" =
      (.content "content-a", runReads fsFixture "/w" stAfterRead ["/w/b.js"], 0) := by
  have h := c5_cache_coherent fsFixture "/w" ⟨[], []⟩ "/w/a.js"
    (.content "content-a") stAfterRead 2 ["/w/b.js"] rfl
    (by intro msg hm; cases hm)
  exact h

/-- C9: a missing-path or is-a-directory failure is returned as not-found
and that not-found is cached (one real file-system call on the first
miss, none on the repeated miss, which returns the identical not-found
from the cache); any other access failure is rethrown uncached; and a
trace failing with such an error aborts the whole build run. -/
theorem c9_notfound_cached_fatal_aborts (fs : String → FsVal) (wp : String)
    (st : CacheState) (p : String)
    (hun : objGet st.sourceCache (relativeModel wp p) = none) :
    ((fs p = .missing ∨ fs p = .dir) →
      readFileModel fs wp st p =
        (.notFound,
         ⟨objInsert st.sourceCache (relativeModel wp p) none, st.fsCache⟩, 1) ∧
      readFileModel fs wp
          ⟨objInsert st.sourceCache (relativeModel wp p) none, st.fsCache⟩ p =
        (.notFound,
         ⟨objInsert st.sourceCache (relativeModel wp p) none, st.fsCache⟩, 0)) ∧
    (∀ msg, fs p = .errOther msg →
      readFileModel fs wp st p = (.fatal msg, st, 1)) ∧
    (∀ (ctx : BuildCtx) (staticFiles : List String) (fn : String)
        (ref : FileFsRefM) (rest : List (String × FileFsRefM)) (n0 : Nat)
        (e : String),
      ctx.trace ref.fsPath = .error e →
      modelBuild ctx staticFiles ((fn, ref) :: rest) n0 = .error e) := by
  refine ⟨?_, ?_, ?_⟩
  · intro hmd
    constructor
    · simp only [readFileModel]
      rw [hun]
      rcases hmd with hf | hf <;> rw [hf]
    · have hcached : objGet (objInsert st.sourceCache (relativeModel wp p) none)
          (relativeModel wp p) = some none := by
        simp [objGet_objInsert]
      exact readFileModel_hit fs wp _ p none hcached
  · intro msg hf
    simp only [readFileModel]
    rw [hun, hf]
  · intro ctx staticFiles fn ref rest n0 e htr
    exact modelBuild_err_of_loop ctx staticFiles _ n0 e
      (buildLoop_cons_err ctx fn ref rest [] n0 [] e
        (processFunction_eq_err ctx fn ref n0 e htr))

/-- C9 witness: a first miss of `/w/miss.js` caches the not-found; the
repeated miss costs no file-system call and returns the same result. -/
theorem c9_notfound_cached_fatal_aborts_witness :
    readFileModel fsFixture "/w" ⟨[], []⟩ "/w/miss.js" =
      (.notFound, stAfterMiss, 1) ∧
    readFileModel fsFixture "/w" stAfterMiss "/w/miss.js" =
      (.notFound, stAfterMiss, 0) := by
  have h := c9_notfound_cached_fatal_aborts fsFixture "/w" ⟨[], []⟩ "/w/miss.js" rfl
  have h2 := h.1 (Or.inl rfl)
  exact ⟨h2.1, h2.2⟩

/-- C10 counterexample: of three warnings the oracle emits — one carrying
a stack, one without a stack, one with an empty stack — only the first is
forwarded; the other two are dropped. -/
theorem c10_dropped_warning_counterexample :
    forwardWarnings [some "Error: x", none, some ""] = ["Warning: x"] ∧
    ([some "Error: x", none, some ""] : List (Option String)).length = 3 := by
  decide

/-- C10 (amended): every warning whose stack is non-empty is forwarded
with the first `Error: ` rewritten to `Warning: ` (warnings without a
stack are dropped), and warnings never fail or alter packaging: the same
trace with any other warning list still succeeds with the identical
key-value pair and counter, only the forwarded log differing. -/
theorem c10_warnings_forwarded_never_fail (ws : List (Option String)) (s : String)
    (ctx : BuildCtx) (t2 : String → Except String TraceResult) (fn : String)
    (ref : FileFsRefM) (n : Nat) (tr : TraceResult) (ws2 : List (Option String))
    (hs : some s ∈ ws) (hse : s ≠ "")
    (h1 : ctx.trace ref.fsPath = .ok tr)
    (h2 : t2 ref.fsPath = .ok ⟨tr.fileList, tr.esmFileList, ws2⟩) :
    replaceFirst s "Error: " "Warning: " ∈ forwardWarnings ws ∧
    (processFunction ctx fn ref n).map (fun res => (res.1, res.2.1)) =
      (processFunction { ctx with trace := t2 } fn ref n).map
        (fun res => (res.1, res.2.1)) ∧
    (processFunction ctx fn ref n).map (fun res => res.2.2) =
      .ok (forwardWarnings tr.warnings) ∧
    (processFunction { ctx with trace := t2 } fn ref n).map (fun res => res.2.2) =
      .ok (forwardWarnings ws2) := by
  refine ⟨?_, ?_, ?_, ?_⟩
  · refine List.mem_filterMap.mpr ⟨some s, hs, ?_⟩
    simp only [bne_iff_ne.mpr hse, if_true]
  · rw [processFunction_eq_ok ctx fn ref n tr h1,
        processFunction_eq_ok { ctx with trace := t2 } fn ref n
          ⟨tr.fileList, tr.esmFileList, ws2⟩ h2]
    rfl
  · rw [processFunction_eq_ok ctx fn ref n tr h1]
    rfl
  · rw [processFunction_eq_ok { ctx with trace := t2 } fn ref n
        ⟨tr.fileList, tr.esmFileList, ws2⟩ h2]
    rfl

/-- C10 witness: the amended theorem at a one-warning trace against its
silent twin. -/
theorem c10_warnings_forwarded_never_fail_witness :
    "Warning: x" ∈ forwardWarnings [some "Error: x"] ∧
    (processFunction ctxWarn "a.js" ⟨"/w/api/dist/functions/a.js", 0⟩ 100).map
        (fun res => (res.1, res.2.1)) =
      (processFunction { ctxWarn with trace := traceQuiet } "a.js"
          ⟨"/w/api/dist/functions/a.js", 0⟩ 100).map
        (fun res => (res.1, res.2.1)) ∧
    (processFunction ctxWarn "a.js" ⟨"/w/api/dist/functions/a.js", 0⟩ 100).map
        (fun res => res.2.2) = .ok ["Warning: x"] ∧
    (processFunction { ctxWarn with trace := traceQuiet } "a.js"
        ⟨"/w/api/dist/functions/a.js", 0⟩ 100).map
      (fun res => res.2.2) = .ok [] := by
  have h := c10_warnings_forwarded_never_fail [some "Error: x"] "Error: x"
    ctxWarn traceQuiet "a.js" ⟨"/w/api/dist/functions/a.js", 0⟩ 100
    ⟨[], [], [some "Error: x"]⟩ [] (by simp) (by decide) rfl rfl
  exact ⟨h.1, h.2.1, h.2.2.1, h.2.2.2⟩

/-- C6 counterexample: two functions sharing one traced dependency each
hold it exactly once, but the stored entries are two distinct freshly
created references (allocation ids 100 and 101) rather than one shared
cached instance — the parsed-file cache is written but never read. -/
theorem c6_not_same_instance_counterexample :
    manifestFileEntry (modelBuild ctxShared [] funcsShared 100) "api/a"
      "node_modules/dep/index.js" = some ⟨"/w/node_modules/dep/index.js", 100⟩ ∧
    manifestFileEntry (modelBuild ctxShared [] funcsShared 100) "api/b"
      "node_modules/dep/index.js" = some ⟨"/w/node_modules/dep/index.js", 101⟩ ∧
    (⟨"/w/node_modules/dep/index.js", 100⟩ : FileFsRefM) ≠
      ⟨"/w/node_modules/dep/index.js", 101⟩ :=
  ⟨rfl, rfl, by decide⟩

/-- C6 (amended): each function's file map has duplicate-free keys, so a
shared dependency appears exactly once per map; but the entry stored for
a shared traced path is freshly created per function — two successively
packaged functions hold distinct instances for the same path, since the
loop re-creates references instead of consulting the file-reference
cache. -/
theorem c6_shared_dependency_fresh_instances (ctx : BuildCtx) (fn1 fn2 : String)
    (ref1 ref2 : FileFsRefM) (n : Nat) (kv1 kv2 : String × NodejsLambdaM)
    (n1 n2 : Nat) (fw1 fw2 : List String) (p : String) (e1 e2 : FileFsRefM)
    (hp1 : processFunction ctx fn1 ref1 n = .ok (kv1, n1, fw1))
    (hp2 : processFunction ctx fn2 ref2 n1 = .ok (kv2, n2, fw2))
    (hne1 : p ≠ relativeModel ctx.workPath ref1.fsPath)
    (hne2 : p ≠ relativeModel ctx.workPath ref2.fsPath)
    (he1 : objGet kv1.2.files p = some e1)
    (he2 : objGet kv2.2.files p = some e2) :
    (kv1.2.files.map Prod.fst).Nodup ∧ (kv2.2.files.map Prod.fst).Nodup ∧
    e1 ≠ e2 := by
  obtain ⟨tr1, -, -, hf1, hn1, -⟩ := processFunction_ok_inv ctx fn1 ref1 n kv1 n1 fw1 hp1
  obtain ⟨tr2, -, -, hf2, hn2, -⟩ := processFunction_ok_inv ctx fn2 ref2 n1 kv2 n2 fw2 hp2
  refine ⟨?_, ?_, ?_⟩
  · rw [hf1]
    exact objInsert_keys_nodup _ _ _ (packageFiles_keys_nodup _ _ [] n (by simp))
  · rw [hf2]
    exact objInsert_keys_nodup _ _ _ (packageFiles_keys_nodup _ _ [] n1 (by simp))
  · rw [hf1, objGet_objInsert, if_neg hne1] at he1
    rw [hf2, objGet_objInsert, if_neg hne2] at he2
    rcases packageFiles_range _ _ _ _ _ _ he1 with h0 | hr1
    · simp [objGet] at h0
    rcases packageFiles_range _ _ _ _ _ _ he2 with h0 | hr2
    · simp [objGet] at h0
    have hle : n1 = n + (tr1.fileList ++ tr1.esmFileList).length := by
      rw [hn1, packageFiles_snd]
    intro he
    have hlt : e1.instanceId < n1 := by
      rw [hle]
      exact hr1.2
    have hge : n1 ≤ e2.instanceId := hr2.1
    rw [he] at hlt
    omega

/-- C7 counterexample: the input tree containing only the file
`a.html.html` yields the manifest key `a.html`, which ends in `.html` —
the claim's final conjunct fails, although only one `.html` extension was
stripped exactly as the claim's other conjuncts describe. -/
theorem c7_html_key_counterexample :
    staticOutputsModel "/w/web/dist" ["a.html.html"] =
      [("a.html", ⟨"/w/web/dist/a.html.html", some "text/html; charset=utf-8"⟩)] ∧
    strEndsWith "a.html" ".html" = true := by
  decide

/-- C7 (amended): a file whose slash-free basename does not parse with
extension `.html` is stored under its unchanged relative path with no
content type; an HTML document (basename a non-empty stem plus `.html`)
is stored under the relative path with one `.html` stripped and content
type forced to `text/html; charset=utf-8`.  A stored key can therefore
still end in `.html` when the basename ends in `.html.html` or is the
extensionless dotfile `.html`. -/
theorem c7_static_asset_classification (w d b : String)
    (acc : List (String × StaticAsset)) (hw : w ≠ "")
    (hb : ∀ c ∈ b.toList, c ≠ '/') :
    (nodeExt b ≠ ".html" →
      staticStep w acc (joinModel d b) =
        objInsert acc (joinModel d b) ⟨joinModel w (joinModel d b), none⟩) ∧
    (∀ y, y ≠ "" → b = y ++ ".html" →
      staticStep w acc (joinModel d b) =
        objInsert acc (joinModel d y)
          ⟨joinModel w (joinModel d b), some "text/html; charset=utf-8"⟩) := by
  have hbase : basenameStr (joinModel w (joinModel d b)) = b := by
    by_cases hd : d = ""
    · subst hd
      rw [joinModel_nil b]
      refine basenameStr_of_split _ w b ?_ hb
      rw [joinModel_ne w b hw]
      simp [strToList_append, slash_toList]
    · refine basenameStr_of_split _ (w ++ "/" ++ d) b ?_ hb
      rw [toList_join_ne w _ hw, toList_join_ne d b hd]
      simp [strToList_append, slash_toList]
  constructor
  · intro hne
    simp only [staticStep]
    rw [hbase]
    rw [if_pos (bne_iff_ne.mpr hne)]
  · intro y hy hbe
    subst hbe
    have hext : nodeExt (y ++ ".html") = ".html" := nodeExt_concat_html y hy
    have hstrip : nodeBasename (joinModel d (y ++ ".html")) ".html" = y :=
      nodeBasename_strip d y hy hb
    have hkey : relativeModel w
        (joinModel (parseDir (joinModel w (joinModel d (y ++ ".html")))) y) =
        joinModel d y := by
      by_cases hd : d = ""
      · subst hd
        rw [joinModel_nil (y ++ ".html"), joinModel_nil y]
        rw [joinModel_ne w _ hw]
        rw [parseDir_of_split _ w (y ++ ".html")
          (by simp [strToList_append, slash_toList]) hb]
        rw [joinModel_ne w y hw]
        exact relativeModel_of_split w _ y (by simp [strToList_append, slash_toList])
      · rw [joinModel_ne d _ hd, joinModel_ne w _ hw, joinModel_ne d y hd]
        rw [parseDir_of_split _ (w ++ "/" ++ d) (y ++ ".html")
          (by simp [strToList_append, slash_toList]) hb]
        rw [joinModel_ne _ y (append_slash_ne w d)]
        exact relativeModel_of_split w _ (d ++ "/" ++ y)
          (by simp [strToList_append, slash_toList])
    simp only [staticStep]
    rw [hbase, hext]
    rw [if_neg (by decide)]
    rw [hstrip, hkey]

/-- C7 witness: the amended theorem's two branches at `blog/post.html`
and `app.js`. -/
theorem c7_static_asset_classification_witness :
    staticStep "/w/web/dist" [] "blog/post.html" =
      [("blog/post", ⟨"/w/web/dist/blog/post.html",
        some "text/html; charset=utf-8"⟩)] ∧
    staticStep "/w/web/dist" [] "app.js" =
      [("app.js", ⟨"/w/web/dist/app.js", none⟩)] := by
  have h1 := (c7_static_asset_classification "/w/web/dist" "blog" "post.html" []
    (by decide) (by decide)).2 "post" (by decide) rfl
  have h2 := (c7_static_asset_classification "/w/web/dist" "" "app.js" []
    (by decide) (by decide)).1 (by decide)
  exact ⟨h1.trans (by decide), h2.trans (by decide)⟩

/-- C6 witness: the amended theorem at the shared-dependency fixture. -/
theorem c6_shared_dependency_fresh_instances_witness :
    (⟨"/w/node_modules/dep/index.js", 100⟩ : FileFsRefM) ≠
      ⟨"/w/node_modules/dep/index.js", 101⟩ := by
  have h := c6_shared_dependency_fresh_instances ctxShared "a.js" "b.js"
    ⟨"/w/api/dist/functions/a.js", 0⟩ ⟨"/w/api/dist/functions/b.js", 1⟩ 100
    ("api/a",
      ⟨[("node_modules/dep/index.js", ⟨"/w/node_modules/dep/index.js", 100⟩),
        ("api/dist/functions/a.js", ⟨"/w/api/dist/functions/a.js", 0⟩)],
       "api/dist/functions/a.js", none, none, "api/dist/functions/a.handler"⟩)
    ("api/b",
      ⟨[("node_modules/dep/index.js", ⟨"/w/node_modules/dep/index.js", 101⟩),
        ("api/dist/functions/b.js", ⟨"/w/api/dist/functions/b.js", 1⟩)],
       "api/dist/functions/b.js", none, none, "api/dist/functions/b.handler"⟩)
    101 102 [] [] "node_modules/dep/index.js"
    ⟨"/w/node_modules/dep/index.js", 100⟩ ⟨"/w/node_modules/dep/index.js", 101⟩
    rfl rfl (by decide) (by decide) rfl rfl
  exact h.2.2

end Redwood
